import Mathlib

/-!
Verification of the tree-taxonomy flattening and price-aggregation engine of
the Brightbeam code challenge (`property_value_analysis/property_value_statistics.py`).

The Python code is shallowly embedded: Python runtime values are the inductive
type `PyVal`, Python dictionaries are insertion-ordered association lists with
string keys, and Python exceptions are modelled with `Except` over the
exception classes the code can raise.  Python floats are modelled as exact
rationals; to keep every operation kernel-computable they are carried as
explicit fractions (`MRat`: an integer numerator over a positive natural
denominator, not necessarily reduced), and `MRat.toRat` maps them to `ℚ`
for the statements.  The arithmetic the claims exercise is exact both in
Python's binary floats and in this model.
-/

namespace PVS

/-- A Python runtime value, covering the shapes the analysed module can meet:
strings, ints, bools (a distinct constructor because `bool` is an `int`
subclass with special `str()` output), floats, `None`, lists, and
string-keyed dicts (insertion-ordered association lists). -/
inductive PyVal where
  | str (s : String)
  | int (n : Int)
  | bool (b : Bool)
  | float (num : ℤ) (den : {d : ℕ // 0 < d})
  | pyNone
  | list (xs : List PyVal)
  | dict (entries : List (String × PyVal))

/-- A modelled float: an exact fraction with positive denominator. -/
structure MRat where
  num : ℤ
  den : {d : ℕ // 0 < d}
  deriving DecidableEq

/-- The rational value of a modelled float, used in theorem statements. -/
def MRat.toRat (m : MRat) : ℚ := (m.num : ℚ) / (m.den.1 : ℚ)

/-- The float value `n` (Python `float(n)` for an int `n`). -/
def MRat.ofInt (n : ℤ) : MRat := ⟨n, ⟨1, Nat.one_pos⟩⟩

instance : OfNat MRat n := ⟨MRat.ofInt n⟩

/-- Python float `+` on exact fractions. -/
def MRat.add (a b : MRat) : MRat :=
  ⟨a.num * b.den.1 + b.num * a.den.1, ⟨a.den.1 * b.den.1, Nat.mul_pos a.den.2 b.den.2⟩⟩

/-- Python float `/` by a positive integer (the `total / count` step). -/
def MRat.divNat (a : MRat) (n : ℕ) (h : 0 < n) : MRat :=
  ⟨a.num, ⟨a.den.1 * n, Nat.mul_pos a.den.2 h⟩⟩

mutual

/-- Structural equality on `PyVal`, used to state the claims about leaf sets.
(Python float values are canonical, so on values Python can build this
coincides with Python `==` at equal types.) -/
def pyEqb : PyVal → PyVal → Bool
  | .str a, .str b => a == b
  | .int a, .int b => a == b
  | .bool a, .bool b => a == b
  | .float a p, .float b q => a == b && p.1 == q.1
  | .pyNone, .pyNone => true
  | .list as, .list bs => pyEqbList as bs
  | .dict as, .dict bs => pyEqbEntries as bs
  | _, _ => false

/-- Elementwise `pyEqb` on lists. -/
def pyEqbList : List PyVal → List PyVal → Bool
  | [], [] => true
  | a :: as, b :: bs => pyEqb a b && pyEqbList as bs
  | _, _ => false

/-- Elementwise `pyEqb` on dict entries. -/
def pyEqbEntries : List (String × PyVal) → List (String × PyVal) → Bool
  | [], [] => true
  | (k, a) :: as, (k', b) :: bs => k == k' && pyEqb a b && pyEqbEntries as bs
  | _, _ => false

end

/-- A Python dict with string keys, as an insertion-ordered association list. -/
abbrev Dict (α : Type) := List (String × α)

/-- Python dict lookup `d[key]` / `d.get(key)`: value of the first matching key. -/
def dget? {α : Type} : Dict α → String → Option α
  | [], _ => none
  | (k, v) :: rest, key => if k = key then some v else dget? rest key

/-- Python `key in d` for a dict. -/
def dcontains {α : Type} (d : Dict α) (key : String) : Bool :=
  (dget? d key).isSome

/-- Python dict assignment `d[key] = v`: replaces the value of an existing key
in place (keeping its position), otherwise appends the new pair at the end. -/
def dset {α : Type} : Dict α → String → α → Dict α
  | [], key, v => [(key, v)]
  | (k, w) :: rest, key, v =>
      if k = key then (k, v) :: rest else (k, w) :: dset rest key v

/-- The flattened street index: street name → (tree type → True), as built by
`_flatten_street_trees` (inner values are only ever `True`). -/
abbrev FDict := Dict (Dict Bool)

/-- The Python exceptions the analysed code can raise. -/
inductive PyExn where
  | keyError
  | valueError
  | typeError
  | attributeError
  deriving DecidableEq, Repr

/-- The leaf test of `_flatten_street_tree_type`:
`isinstance(value, int) and value >= 0`.  In Python `bool` is a subclass of
`int` with `True == 1` and `False == 0`, so both booleans pass the test. -/
def isValidHeight : PyVal → Bool
  | .int n => decide (0 ≤ n)
  | .bool _ => true
  | _ => false

/-- The body of the leaf branch of `_flatten_street_tree_type`: create the
street's entry if absent, then set `flattened[key][tree_type] = True`. -/
def recordStreet (acc : FDict) (street tree_type : String) : FDict :=
  match dget? acc street with
  | some inner => dset acc street (dset inner tree_type true)
  | none => dset acc street (dset [] tree_type true)

mutual

/-- One iteration of the loop body of `_flatten_street_tree_type` for the
entry `(key, v)`: recurse into dict values, record the street at a valid
leaf, silently skip every other leaf. -/
def flattenVal (key : String) (v : PyVal) (tree_type : String) (acc : FDict) : FDict :=
  match v with
  | .dict d => flattenEntries d tree_type acc
  | v => if isValidHeight v then recordStreet acc key tree_type else acc

/-- The `for key, value in street_trees.items()` loop of
`_flatten_street_tree_type`, in insertion order. -/
def flattenEntries (l : List (String × PyVal)) (tree_type : String) (acc : FDict) : FDict :=
  match l with
  | [] => acc
  | (k, v) :: rest => flattenEntries rest tree_type (flattenVal k v tree_type acc)

end

/-- `_flatten_street_tree_type(street_trees, tree_type, flattened_street_trees)`. -/
def flattenStreetTreeType (street_trees : List (String × PyVal)) (tree_type : String)
    (flattened_street_trees : FDict) : FDict :=
  flattenEntries street_trees tree_type flattened_street_trees

/-- The loop of `_flatten_street_trees` over the top-level category entries.
Calling `_flatten_street_tree_type` hands the category's value to a
`.items()` iteration, so a non-dict value raises `AttributeError` there. -/
def flattenCategories : Dict PyVal → FDict → Except PyExn FDict
  | [], acc => .ok acc
  | (tree_type, .dict d) :: rest, acc =>
      flattenCategories rest (flattenStreetTreeType d tree_type acc)
  | (_, _) :: _, _ => .error .attributeError

/-- `_flatten_street_trees`: flatten the whole taxonomy starting from an empty
index (the `if street_trees:` falsiness guard coincides with the empty list
case of the loop). -/
def flattenStreetTrees (street_trees : Dict PyVal) : Except PyExn FDict :=
  flattenCategories street_trees []

/-! ### Strings, price parsing and `str()` -/

/-- `price.replace(",", "")`: drop every comma. -/
def removeCommas (s : String) : String := ⟨s.data.filter (fun c => c ≠ ',')⟩

/-- Python `str.lower()` (ASCII range; the analysed data is ASCII). -/
def pyLowerStr (s : String) : String := ⟨s.data.map Char.toLower⟩

/-- Value of a string of decimal digits. -/
def digitsToNat (cs : List Char) : ℕ :=
  cs.foldl (fun a c => 10 * a + (c.toNat - 48)) 0

/-- Strip one optional leading sign; `true` means negative. -/
def splitSign : List Char → Bool × List Char
  | '-' :: rest => (true, rest)
  | '+' :: rest => (false, rest)
  | cs => (false, cs)

/-- All characters are decimal digits. -/
def allDigits (cs : List Char) : Bool := cs.all Char.isDigit

/-- Unsigned mantissa of a float literal: digits with an optional single
point, at least one digit overall; value `ip + frac / 10 ^ |frac|` as one
exact fraction. -/
def parseMantissa (cs : List Char) : Option MRat :=
  let ip := cs.takeWhile (fun c => c ≠ '.')
  match cs.dropWhile (fun c => c ≠ '.') with
  | [] =>
      if !ip.isEmpty && allDigits ip then some (.ofInt (digitsToNat ip)) else none
  | _ :: frac =>
      if allDigits ip && allDigits frac && (!ip.isEmpty || !frac.isEmpty) then
        some ⟨digitsToNat ip * 10 ^ frac.length + digitsToNat frac,
              ⟨10 ^ frac.length, pow_pos (by norm_num) frac.length⟩⟩
      else none

/-- Negate when the sign was `-`. -/
def applySign (neg : Bool) (m : MRat) : MRat := if neg then ⟨-m.num, m.den⟩ else m

/-- Models Python `float()` on decimal literals: optional sign, digits with an
optional point, optional exponent part.  Python additionally accepts
whitespace, underscores between digits and `inf`/`nan` spellings; none of
those occur in the analysed data and they are not modelled. -/
def parseFloat (s : String) : Option MRat :=
  let (neg, cs) := splitSign s.data
  let mant := cs.takeWhile (fun c => c ≠ 'e' && c ≠ 'E')
  match parseMantissa mant, cs.dropWhile (fun c => c ≠ 'e' && c ≠ 'E') with
  | some m, [] => some (applySign neg m)
  | some m, _ :: ecs =>
      let (eneg, ds) := splitSign ecs
      if !ds.isEmpty && allDigits ds then
        let e := digitsToNat ds
        let mag : MRat :=
          if eneg then ⟨m.num, ⟨m.den.1 * 10 ^ e, Nat.mul_pos m.den.2 (pow_pos (by norm_num) e)⟩⟩
          else ⟨m.num * 10 ^ e, m.den⟩
        some (applySign neg mag)
      else none
  | none, _ => none

/-- Euclid's algorithm with explicit fuel (kernel-computable gcd). -/
def gcdFuel : ℕ → ℕ → ℕ → ℕ
  | 0, _, b => b
  | fuel + 1, a, b => if a = 0 then b else gcdFuel fuel (b % a) a

/-- Greatest common divisor (fuelled; `a + 1` steps always suffice). -/
def ngcd (a b : ℕ) : ℕ := gcdFuel (a + 1) a b

/-- Number of times `p` (≥ 2) divides `n` (> 0), computed with explicit fuel. -/
def multAux (p : ℕ) : ℕ → ℕ → ℕ
  | 0, _ => 0
  | fuel + 1, n => if 2 ≤ p ∧ n ≠ 0 ∧ n % p = 0 then multAux p fuel (n / p) + 1 else 0

/-- Multiplicity of `p` in `n`. -/
def mult (p n : ℕ) : ℕ := multAux p n n

/-- Decimal digit string of a natural number padded on the left with zeros. -/
def padLeft (s : String) (w : ℕ) : String := ⟨List.replicate (w - s.length) '0'⟩ ++ s

/-- Models Python `str()` on a float value.  Python float values are dyadic
rationals and `str` prints an exact-roundtrip decimal; after reducing the
fraction we print the exact decimal expansion when the denominator divides a
power of 10 (every value the modelled `float()` produces is of this form)
and fall back to a fraction rendering otherwise.  Python switches to
exponent notation at extreme magnitudes; the spellings parse back to the
same number, and only parseability matters downstream. -/
def floatStr (m : MRat) : String :=
  let g := ngcd m.num.natAbs m.den.1
  let n := m.num / g
  let d := m.den.1 / g
  let e := max (mult 2 d) (mult 5 d)
  if d ∣ 10 ^ e then
    let a := (n * ((10 ^ e : ℕ) / d : ℕ)).natAbs
    (if n < 0 then "-" else "") ++ toString (a / 10 ^ e) ++ "." ++
      (if e = 0 then "0" else padLeft (toString (a % 10 ^ e)) e)
  else toString n ++ "/" ++ toString d

/-- Models Python `str()`.  For lists and dicts Python prints a bracketed
rendering that `float()` can never parse; the placeholders keep that
property without reproducing the exact text. -/
def pyStr : PyVal → String
  | .str s => s
  | .int n => toString n
  | .bool b => if b then "True" else "False"
  | .float n d => floatStr ⟨n, d⟩
  | .pyNone => "None"
  | .list _ => "[...]"
  | .dict _ => "{...}"

/-! ### The aggregator `_calculate_average_price` -/

/-- `needle` is a leading sequence of `hay`. -/
def charsStartWith : List Char → List Char → Bool
  | [], _ => true
  | _ :: _, [] => false
  | a :: as, b :: bs => a == b && charsStartWith as bs

/-- `needle` occurs contiguously somewhere in `hay` (Python `in` on strings). -/
def charsHaveSub (needle : List Char) : List Char → Bool
  | [] => needle.isEmpty
  | b :: bs => charsStartWith needle (b :: bs) || charsHaveSub needle bs

/-- Python `key in obj` as evaluated on a sale record: key membership for
dicts, substring test for strings, element membership for lists (a string
key compares equal only to an equal string element), and `TypeError` for
non-container values. -/
def pyContains (obj : PyVal) (key : String) : Except PyExn Bool :=
  match obj with
  | .dict d => .ok (dcontains d key)
  | .str s => .ok (charsHaveSub key.data s.data)
  | .list xs => .ok (xs.any fun v => match v with | .str s => s = key | _ => false)
  | _ => .error .typeError

/-- Python `obj.get(key, default)`: only dicts have `.get`; every other
value raises `AttributeError`. -/
def pyGet (obj : PyVal) (key : String) (default : PyVal) : Except PyExn PyVal :=
  match obj with
  | .dict d => .ok ((dget? d key).getD default)
  | _ => .error .attributeError

/-- Python `v.lower()`: only strings have `.lower`; every other value raises
`AttributeError`. -/
def pyLower (v : PyVal) : Except PyExn String :=
  match v with
  | .str s => .ok (pyLowerStr s)
  | _ => .error .attributeError

/-- The `try:` body of the record loop in `_calculate_average_price`, in the
source's evaluation order: required-field check (raises `KeyError`), street
name lower-casing (may raise `AttributeError` on a non-string), price
stringification and parse (raises `ValueError` on failure), blank-street
check (`ValueError`), index lookup (`KeyError`), then the category test and
accumulation. -/
def processRecord (index : FDict) (tree_type : String) (record : PyVal)
    (total : MRat) (count : ℕ) : Except PyExn (MRat × ℕ) :=
  match pyContains record "Price" with
  | .error e => .error e
  | .ok hasPrice =>
  match pyContains record "Street Name" with
  | .error e => .error e
  | .ok hasStreet =>
  if !hasPrice || !hasStreet then .error .keyError
  else
  match pyGet record "Street Name" (.str "") with
  | .error e => .error e
  | .ok sn =>
  match pyLower sn with
  | .error e => .error e
  | .ok street_name =>
  match pyGet record "Price" (.str "0") with
  | .error e => .error e
  | .ok pv =>
  match parseFloat (removeCommas (pyStr pv)) with
  | none => .error .valueError
  | some price =>
  if street_name = "" then .error .valueError
  else
  match dget? index street_name with
  | none => .error .keyError
  | some inner =>
      if dcontains inner tree_type then .ok (total.add price, count + 1)
      else .ok (total, count)

/-- The `except (ValueError, KeyError, TypeError)` clause: exactly these are
caught and turned into a per-record skip; `AttributeError` is not. -/
def caught : PyExn → Bool
  | .keyError => true
  | .valueError => true
  | .typeError => true
  | .attributeError => false

/-- The record loop of `_calculate_average_price`: accumulate `total_price`
and `property_count`, skipping records whose processing raises a caught
exception and propagating any other exception. -/
def aggregate (index : FDict) (tree_type : String) :
    List PyVal → MRat → ℕ → Except PyExn (MRat × ℕ)
  | [], total, count => .ok (total, count)
  | r :: rest, total, count =>
      match processRecord index tree_type r total count with
      | .ok (total', count') => aggregate index tree_type rest total' count'
      | .error e =>
          if caught e then aggregate index tree_type rest total count
          else .error e

/-- Round to the nearest integer, ties to even (the rounding rule of Python's
`round`, evaluated here on the model's exact fractions: with
`f = ⌊num / den⌋` the fractional part compares to `1/2` as
`2 * (num - f * den)` compares to `den`). -/
def roundHalfEven (m : MRat) : ℤ :=
  let f := Int.fdiv m.num m.den.1
  let r := 2 * (m.num - f * m.den.1)
  if r < (m.den.1 : ℤ) then f
  else if r > (m.den.1 : ℤ) then f + 1
  else if f % 2 = 0 then f else f + 1

/-- `round(x, 2)`. -/
def round2 (m : MRat) : MRat :=
  ⟨roundHalfEven ⟨m.num * 100, m.den⟩, ⟨100, by norm_num⟩⟩

/-- `_calculate_average_price(tree_type)` given the already-flattened index:
run the record loop, then `total / count` if `count != 0` else `0.0`,
rounded to 2 decimal places. -/
def calculateAveragePrice (property_sales : List PyVal) (index : FDict)
    (tree_type : String) : Except PyExn MRat :=
  match aggregate index tree_type property_sales (.ofInt 0) 0 with
  | .ok (total, count) =>
      .ok (round2 (if h : count ≠ 0 then total.divNat count (Nat.pos_of_ne_zero h)
                   else .ofInt 0))
  | .error e => .error e

/-- The whole pipeline: `PropertyValueStatistics(property_sales, street_trees)`
construction (which flattens the taxonomy) followed by
`_calculate_average_price(tree_type)`. -/
def averagePriceForCategory (property_sales : List PyVal) (street_trees : Dict PyVal)
    (tree_type : String) : Except PyExn MRat :=
  match flattenStreetTrees street_trees with
  | .ok index => calculateAveragePrice property_sales index tree_type
  | .error e => .error e

/-- `calculate_average_price_tall_trees()`. -/
def calculateAveragePriceTallTrees (property_sales : List PyVal)
    (street_trees : Dict PyVal) : Except PyExn MRat :=
  averagePriceForCategory property_sales street_trees "tall"

/-- `calculate_average_price_short_trees()`. -/
def calculateAveragePriceShortTrees (property_sales : List PyVal)
    (street_trees : Dict PyVal) : Except PyExn MRat :=
  averagePriceForCategory property_sales street_trees "short"

/-- The float result of an aggregate call, as a rational, for statements. -/
def ratResult (r : Except PyExn MRat) : Except PyExn ℚ :=
  r.map MRat.toRat

/-! ### Derived notions used to state the claims -/

instance {ε α : Type} [DecidableEq ε] [DecidableEq α] : DecidableEq (Except ε α) :=
  fun a b =>
    match a, b with
    | .ok x, .ok y => decidable_of_iff (x = y) (by simp)
    | .error e, .error f => decidable_of_iff (e = f) (by simp)
    | .ok _, .error _ => .isFalse (by simp)
    | .error _, .ok _ => .isFalse (by simp)

/-- The category set of a street in a flattened index, observed as a mapping:
`lookupFlag idx street tree_type` is the value (if any) of
`idx[street][tree_type]`. -/
def lookupFlag (idx : FDict) (street tree_type : String) : Option Bool :=
  match dget? idx street with
  | some inner => dget? inner tree_type
  | none => none

mutual

/-- The value `v` stored under key `k` yields a valid leaf for street `s`:
either directly (`k = s` and the value passes the height test) or inside a
nested dict. -/
def hasLeafVal (k : String) (v : PyVal) (s : String) : Bool :=
  match v with
  | .dict d => hasLeafEntries d s
  | v => s = k && isValidHeight v

/-- Some entry of `l` yields a valid leaf for street `s` at any depth. -/
def hasLeafEntries (l : List (String × PyVal)) (s : String) : Bool :=
  match l with
  | [] => false
  | (k, v) :: rest => hasLeafVal k v s || hasLeafEntries rest s

end

/-- The taxonomy has, under top-level category `cat`, a valid leaf for street
`s` at any depth (top-level non-dict category values carry no leaves). -/
def hasLeafTop : Dict PyVal → String → String → Bool
  | [], _, _ => false
  | (u, .dict d) :: rest, cat, s => (cat = u && hasLeafEntries d s) || hasLeafTop rest cat s
  | _ :: rest, cat, s => hasLeafTop rest cat s

mutual

/-- The terminal (non-dict) `(key, value)` pairs reachable from the value `v`
stored under key `k`, in traversal order. -/
def leafOfVal (k : String) (v : PyVal) : List (String × PyVal) :=
  match v with
  | .dict d => leafEntries d
  | v => [(k, v)]

/-- The terminal (non-dict) `(key, value)` pairs reachable from entries `l`. -/
def leafEntries : List (String × PyVal) → List (String × PyVal)
  | [] => []
  | (k, v) :: rest => leafOfVal k v ++ leafEntries rest

end

/-- All `(category, street, value)` leaves of a taxonomy: the terminal
entries below each top-level category key (a non-dict directly under a
top-level key is not below any street key and contributes no leaf). -/
def leafList : Dict PyVal → List (String × String × PyVal)
  | [] => []
  | (u, .dict d) :: rest => (leafEntries d).map (fun p => (u, p.1, p.2)) ++ leafList rest
  | _ :: rest => leafList rest

/-- Structural equality of leaf triples. -/
def tripleEqb (a b : String × String × PyVal) : Bool :=
  a.1 == b.1 && a.2.1 == b.2.1 && pyEqb a.2.2 b.2.2

/-- Boolean membership of a leaf triple in a leaf list. -/
def memLeafB (x : String × String × PyVal) (l : List (String × String × PyVal)) : Bool :=
  l.any (tripleEqb x)

/-- Two taxonomies have exactly the same set of `(category, street, value)`
leaves (mutual inclusion of their leaf lists). -/
def sameLeafSet (t1 t2 : Dict PyVal) : Bool :=
  (leafList t1).all (fun x => memLeafB x (leafList t2)) &&
  (leafList t2).all (fun x => memLeafB x (leafList t1))

/-- The taxonomy contains the leaf `street ↦ v` under category `cat`. -/
def leafOccursB (tax : Dict PyVal) (cat street : String) (v : PyVal) : Bool :=
  memLeafB (cat, street, v) (leafList tax)

/-- Every top-level category value of the taxonomy is a dict. -/
def topValuesAreDicts (st : Dict PyVal) : Bool :=
  st.all fun kv => match kv.2 with | .dict _ => true | _ => false

/-- The parsed price of a sale record, exactly as `_calculate_average_price`
computes it: `float(str(record["Price"]).replace(",", ""))`. -/
def priceOf (r : PyVal) : Option MRat :=
  match r with
  | .dict d =>
      match dget? d "Price" with
      | some pv => parseFloat (removeCommas (pyStr pv))
      | none => none
  | _ => none

/-- Every record price that parses at all is non-negative. -/
def nonnegPricesB (sales : List PyVal) : Bool :=
  sales.all fun r =>
    match priceOf r with
    | some q => decide (0 ≤ q.num)
    | none => true

/-- A sale record with one of the defects the spec lists as *rejected*,
restricted (as the code requires) to records whose street-name field, when
it is inspected, holds a string: a missing "Price" or "Street Name" key, a
blank street name after lower-casing, a price that does not parse after
comma removal, or a street name absent from the flattened index. -/
def rejectedB (index : FDict) (r : PyVal) : Bool :=
  match r with
  | .dict d =>
      !dcontains d "Price" || !dcontains d "Street Name" ||
      (match dget? d "Street Name" with
       | some (.str name) =>
           (pyLowerStr name == "") ||
           (match dget? d "Price" with
            | some pv => (parseFloat (removeCommas (pyStr pv))).isNone
            | none => false) ||
           !dcontains index (pyLowerStr name)
       | _ => false)
  | _ => false

/-- The value is a Python dict. -/
def isDictB : PyVal → Bool
  | .dict _ => true
  | _ => false

/-! ### The reference data of the repository's test suite -/

/-- The `property_sales` fixture of `test_property_value_statistics.py`
(also the spec's end-to-end example). -/
def refSales : List PyVal :=
  [ .dict [("Date of Sale (dd/mm/yyyy)", .str "01/01/2015"),
           ("Address", .str "APT 274, THE PARKLANDS, NORTHWOOD"),
           ("Street Name", .str "the park"),
           ("Price", .str "79500.00")],
    .dict [("Date of Sale (dd/mm/yyyy)", .str "12/03/2017"),
           ("Address", .str "APT 15, WOODLANDS PARK, SOUTHWOOD"),
           ("Street Name", .str "cambridge road"),
           ("Price", .str "120000.00")],
    .dict [("Date of Sale (dd/mm/yyyy)", .str "25/07/2020"),
           ("Address", .str "APT 35, GREENFIELDS, GREENTOWN"),
           ("Street Name", .str "ventry park"),
           ("Price", .str "150000.00")] ]

/-- The `street_trees` fixture of `test_property_value_statistics.py`:
"the park" is short-only, "cambridge road" tall-only, "ventry park" both. -/
def refTrees : Dict PyVal :=
  [ ("short", .dict
      [ ("the", .dict [("the park", .int 10)]),
        ("ventry", .dict [("ventry park", .int 0)]),
        ("tone", .dict [("wolf", .dict [("wolf tone park", .int 5)])]) ]),
    ("tall", .dict
      [ ("road", .dict [("cambridge", .dict [("cambridge road", .int 20)])]),
        ("park", .dict [("ventry", .dict [("ventry park", .int 20)])]) ]) ]

/-- The flattened index of `refTrees` (the expected value asserted by
`test_flatten_street_trees`). -/
def refIndex : FDict :=
  [("the park", [("short", true)]),
   ("ventry park", [("short", true), ("tall", true)]),
   ("wolf tone park", [("short", true)]),
   ("cambridge road", [("tall", true)])]

/-! ### Dictionary lemmas -/

theorem dget?_dset_self {α : Type} (d : Dict α) (k : String) (v : α) :
    dget? (dset d k v) k = some v := by
  induction d with
  | nil => simp [dset, dget?]
  | cons h t ih =>
      obtain ⟨k', v'⟩ := h
      by_cases hk : k' = k <;> simp [dset, dget?, hk, ih]

theorem dget?_dset_ne {α : Type} (d : Dict α) (k k' : String) (v : α) (h : k' ≠ k) :
    dget? (dset d k v) k' = dget? d k' := by
  induction d with
  | nil => simp [dset, dget?, Ne.symm h]
  | cons hd t ih =>
      obtain ⟨k'', v''⟩ := hd
      by_cases hk : k'' = k
      · subst hk
        simp [dset, dget?, Ne.symm h]
      · simp [dset, dget?, hk, ih]

/-! ### Characterization of the flattener: a flag is set in the output index
exactly when the taxonomy has a valid leaf for that street under that
category. -/

theorem lookupFlag_recordStreet (acc : FDict) (k u s t : String) :
    lookupFlag (recordStreet acc k u) s t =
      if s = k ∧ t = u then some true else lookupFlag acc s t := by
  unfold recordStreet lookupFlag
  by_cases hs : s = k
  · subst hs
    cases hacc : dget? acc s with
    | none =>
        simp only [hacc, dget?_dset_self]
        by_cases ht : t = u
        · simp [dset, dget?, ht]
        · simp [dset, dget?, ht, Ne.symm ht]
    | some inner =>
        simp only [hacc, dget?_dset_self]
        by_cases ht : t = u
        · simp [ht, dget?_dset_self]
        · simp [ht, dget?_dset_ne _ _ _ _ ht]
  · cases hacc : dget? acc k with
    | none => simp [hacc, dget?_dset_ne _ _ _ _ hs, hs]
    | some inner => simp [hacc, dget?_dset_ne _ _ _ _ hs, hs]

mutual

theorem lookupFlag_flattenVal (k : String) (v : PyVal) (tt : String) (acc : FDict)
    (s t : String) :
    lookupFlag (flattenVal k v tt acc) s t =
      if t = tt ∧ hasLeafVal k v s = true then some true else lookupFlag acc s t := by
  cases v with
  | dict d =>
      rw [show flattenVal k (.dict d) tt acc = flattenEntries d tt acc from rfl,
        lookupFlag_flattenEntries d tt acc s t]
      rfl
  | int n =>
      rw [show flattenVal k (.int n) tt acc =
            (if isValidHeight (.int n) then recordStreet acc k tt else acc) from rfl,
          show hasLeafVal k (.int n) s = (decide (s = k) && isValidHeight (.int n)) from rfl]
      by_cases hvalid : isValidHeight (.int n) = true
      · rw [if_pos hvalid, lookupFlag_recordStreet, hvalid]
        by_cases hs : s = k <;> by_cases ht : t = tt <;> simp [hs, ht]
      · rw [if_neg hvalid]
        simp [Bool.eq_false_iff.mp (Bool.not_eq_true _ ▸ hvalid)]
  | bool b =>
      rw [show flattenVal k (.bool b) tt acc = recordStreet acc k tt from rfl,
          show hasLeafVal k (.bool b) s = decide (s = k) from
            (by simp [hasLeafVal, isValidHeight]),
          lookupFlag_recordStreet]
      by_cases hs : s = k <;> by_cases ht : t = tt <;> simp [hs, ht]
  | str s' =>
      rw [show flattenVal k (.str s') tt acc = acc from rfl]
      simp [hasLeafVal, isValidHeight]
  | float n d =>
      rw [show flattenVal k (.float n d) tt acc = acc from rfl]
      simp [hasLeafVal, isValidHeight]
  | pyNone =>
      rw [show flattenVal k .pyNone tt acc = acc from rfl]
      simp [hasLeafVal, isValidHeight]
  | list xs =>
      rw [show flattenVal k (.list xs) tt acc = acc from rfl]
      simp [hasLeafVal, isValidHeight]

theorem lookupFlag_flattenEntries (l : List (String × PyVal)) (tt : String) (acc : FDict)
    (s t : String) :
    lookupFlag (flattenEntries l tt acc) s t =
      if t = tt ∧ hasLeafEntries l s = true then some true else lookupFlag acc s t := by
  match l with
  | [] =>
      rw [show flattenEntries [] tt acc = acc from rfl]
      simp [hasLeafEntries]
  | (k, v) :: rest =>
      rw [show flattenEntries ((k, v) :: rest) tt acc =
            flattenEntries rest tt (flattenVal k v tt acc) from rfl,
        lookupFlag_flattenEntries rest tt _ s t,
        lookupFlag_flattenVal k v tt acc s t,
        show hasLeafEntries ((k, v) :: rest) s =
            (hasLeafVal k v s || hasLeafEntries rest s) from rfl]
      by_cases ht : t = tt <;>
        by_cases h1 : hasLeafVal k v s = true <;>
          by_cases h2 : hasLeafEntries rest s = true <;> simp [ht, h1, h2]

end

theorem lookupFlag_flattenCategories (st : Dict PyVal) (acc idx : FDict)
    (h : flattenCategories st acc = .ok idx) (s t : String) :
    lookupFlag idx s t =
      if hasLeafTop st t s = true then some true else lookupFlag acc s t := by
  induction st generalizing acc with
  | nil =>
      rw [show flattenCategories [] acc = .ok acc from rfl] at h
      cases h
      simp [hasLeafTop]
  | cons hd rest ih =>
      obtain ⟨u, v⟩ := hd
      cases v with
      | dict d =>
          rw [show flattenCategories ((u, .dict d) :: rest) acc =
                flattenCategories rest (flattenStreetTreeType d u acc) from rfl] at h
          rw [ih _ h,
            show flattenStreetTreeType d u acc = flattenEntries d u acc from rfl] at *
          rw [lookupFlag_flattenEntries d u acc s t,
            show hasLeafTop ((u, .dict d) :: rest) t s =
              ((decide (t = u) && hasLeafEntries d s) || hasLeafTop rest t s) from rfl]
          by_cases h1 : hasLeafTop rest t s = true <;>
            by_cases h2 : t = u <;>
              by_cases h3 : hasLeafEntries d s = true <;> simp [h1, h2, h3]
      | int n => exact absurd h (by simp [flattenCategories])
      | bool b => exact absurd h (by simp [flattenCategories])
      | str s' => exact absurd h (by simp [flattenCategories])
      | float n d => exact absurd h (by simp [flattenCategories])
      | pyNone => exact absurd h (by simp [flattenCategories])
      | list xs => exact absurd h (by simp [flattenCategories])

theorem lookupFlag_flattenStreetTrees (st : Dict PyVal) (idx : FDict)
    (h : flattenStreetTrees st = .ok idx) (s t : String) :
    lookupFlag idx s t = if hasLeafTop st t s = true then some true else none := by
  rw [lookupFlag_flattenCategories st [] idx h s t]
  rfl

theorem any_constAnd {α : Type} (l : List α) (c : Bool) (f : α → Bool) :
    (l.any fun x => c && f x) = (c && l.any f) := by
  cases c <;> simp

theorem any_map_pair (l : List (String × PyVal)) (u0 : String)
    (g : String × String × PyVal → Bool) :
    ((l.map (fun p => (u0, p.1, p.2))).any g) = l.any (fun p => g (u0, p.1, p.2)) := by
  induction l with
  | nil => rfl
  | cons a as ih => simp [ih]

mutual

theorem hasLeafVal_eq_any (k : String) (v : PyVal) (s : String) :
    hasLeafVal k v s =
      (leafOfVal k v).any (fun p => decide (s = p.1) && isValidHeight p.2) := by
  cases v with
  | dict d =>
      rw [show hasLeafVal k (.dict d) s = hasLeafEntries d s from rfl,
        show leafOfVal k (.dict d) = leafEntries d from rfl]
      exact hasLeafEntries_eq_any d s
  | int n => simp [hasLeafVal, leafOfVal]
  | bool b => simp [hasLeafVal, leafOfVal]
  | str s' => simp [hasLeafVal, leafOfVal]
  | float n d => simp [hasLeafVal, leafOfVal]
  | pyNone => simp [hasLeafVal, leafOfVal]
  | list xs => simp [hasLeafVal, leafOfVal]

theorem hasLeafEntries_eq_any (l : List (String × PyVal)) (s : String) :
    hasLeafEntries l s =
      (leafEntries l).any (fun p => decide (s = p.1) && isValidHeight p.2) := by
  match l with
  | [] => rfl
  | (k, v) :: rest =>
      rw [show hasLeafEntries ((k, v) :: rest) s =
            (hasLeafVal k v s || hasLeafEntries rest s) from rfl,
        show leafEntries ((k, v) :: rest) = leafOfVal k v ++ leafEntries rest from rfl,
        List.any_append, hasLeafVal_eq_any k v s, hasLeafEntries_eq_any rest s]

end

theorem hasLeafTop_eq_any (st : Dict PyVal) (u s : String) :
    hasLeafTop st u s =
      (leafList st).any
        (fun x => decide (u = x.1) && (decide (s = x.2.1) && isValidHeight x.2.2)) := by
  induction st with
  | nil => rfl
  | cons hd rest ih =>
      obtain ⟨u0, v⟩ := hd
      cases v with
      | dict d =>
          rw [show hasLeafTop ((u0, .dict d) :: rest) u s =
                ((decide (u = u0) && hasLeafEntries d s) || hasLeafTop rest u s) from rfl,
            show leafList ((u0, .dict d) :: rest) =
                ((leafEntries d).map (fun p => (u0, p.1, p.2)) ++ leafList rest) from rfl,
            List.any_append, ih]
          congr 1
          rw [hasLeafEntries_eq_any d s, ← any_constAnd, any_map_pair]
      | int n => exact ih
      | bool b => exact ih
      | str s' => exact ih
      | float n d => exact ih
      | pyNone => exact ih
      | list xs => exact ih

mutual

theorem pyEqb_eq (a b : PyVal) : pyEqb a b = true ↔ a = b := by
  cases a <;> cases b <;> simp [pyEqb, Subtype.ext_iff] <;>
    first
    | exact pyEqbList_eq _ _
    | exact pyEqbEntries_eq _ _

theorem pyEqbList_eq (l1 l2 : List PyVal) : pyEqbList l1 l2 = true ↔ l1 = l2 := by
  cases l1 with
  | nil => cases l2 <;> simp [pyEqbList]
  | cons a as =>
      cases l2 with
      | nil => simp [pyEqbList]
      | cons b bs =>
          rw [show pyEqbList (a :: as) (b :: bs) = (pyEqb a b && pyEqbList as bs) from rfl]
          simp [pyEqb_eq a b, pyEqbList_eq as bs]

theorem pyEqbEntries_eq (l1 l2 : List (String × PyVal)) :
    pyEqbEntries l1 l2 = true ↔ l1 = l2 := by
  cases l1 with
  | nil => cases l2 <;> simp [pyEqbEntries]
  | cons a as =>
      cases l2 with
      | nil => simp [pyEqbEntries]
      | cons b bs =>
          obtain ⟨k, v⟩ := a
          obtain ⟨k', v'⟩ := b
          rw [show pyEqbEntries ((k, v) :: as) ((k', v') :: bs) =
                (k == k' && pyEqb v v' && pyEqbEntries as bs) from rfl]
          simp [pyEqb_eq v v', pyEqbEntries_eq as bs, and_assoc]

end

theorem dget?_of_dcontains {α : Type} (d : Dict α) (k : String)
    (h : dcontains d k = true) : ∃ v, dget? d k = some v := by
  simpa [dcontains, Option.isSome_iff_exists] using h

theorem processRecord_ok (index : FDict) (tt : String) (r : PyVal) (total : MRat)
    (count : ℕ) (t' : MRat) (c' : ℕ)
    (h : processRecord index tt r total count = .ok (t', c')) :
    (t' = total ∧ c' = count) ∨
    (∃ q, priceOf r = some q ∧ t' = total.add q ∧ c' = count + 1) := by
  cases r with
  | dict d =>
      rw [show processRecord index tt (.dict d) total count =
            (if !dcontains d "Price" || !dcontains d "Street Name" then .error .keyError
             else
             match pyLower ((dget? d "Street Name").getD (.str "")) with
             | .error e => .error e
             | .ok street_name =>
               match parseFloat (removeCommas (pyStr ((dget? d "Price").getD (.str "0")))) with
               | none => .error .valueError
               | some price =>
                 if street_name = "" then .error .valueError
                 else
                 match dget? index street_name with
                 | none => .error .keyError
                 | some inner =>
                     if dcontains inner tt then .ok (total.add price, count + 1)
                     else .ok (total, count)) from rfl] at h
      by_cases hp : dcontains d "Price" = true
      · by_cases hsn : dcontains d "Street Name" = true
        · rw [if_neg (by simp [hp, hsn])] at h
          obtain ⟨pv, hpv⟩ := dget?_of_dcontains d "Price" hp
          cases hget : (dget? d "Street Name").getD (.str "") with
          | str name =>
              rw [hget] at h
              rw [show pyLower (.str name) = .ok (pyLowerStr name) from rfl] at h
              dsimp only at h
              cases hparse :
                  parseFloat (removeCommas (pyStr ((dget? d "Price").getD (.str "0")))) with
              | none => rw [hparse] at h; cases h
              | some price =>
                  rw [hparse] at h
                  dsimp only at h
                  by_cases hblank : pyLowerStr name = ""
                  · rw [if_pos hblank] at h; cases h
                  · rw [if_neg hblank] at h
                    cases hidx : dget? index (pyLowerStr name) with
                    | none => rw [hidx] at h; cases h
                    | some inner =>
                        rw [hidx] at h
                        dsimp only at h
                        by_cases hin : dcontains inner tt = true
                        · rw [if_pos hin] at h
                          refine .inr ⟨price, ?_, ?_, ?_⟩
                          · rw [show priceOf (.dict d) =
                                  (match dget? d "Price" with
                                   | some pv => parseFloat (removeCommas (pyStr pv))
                                   | none => none) from rfl, hpv]
                            rw [hpv] at hparse
                            simpa using hparse
                          · exact (by cases h; rfl)
                          · exact (by cases h; rfl)
                        · rw [if_neg hin] at h
                          exact .inl (by cases h; exact ⟨rfl, rfl⟩)
          | int n => rw [hget] at h; cases h
          | bool b => rw [hget] at h; cases h
          | float n dd => rw [hget] at h; cases h
          | pyNone => rw [hget] at h; cases h
          | list xs => rw [hget] at h; cases h
          | dict dd => rw [hget] at h; cases h
        · rw [if_pos (by simp [hsn])] at h; cases h
      · rw [if_pos (by simp [hp])] at h; cases h
  | str s => 
      rw [show processRecord index tt (.str s) total count =
            (if !(charsHaveSub "Price".data s.data) || !(charsHaveSub "Street Name".data s.data)
             then .error .keyError else .error .attributeError) from rfl] at h
      split at h <;> cases h
  | list xs =>
      rw [show processRecord index tt (.list xs) total count =
            (if !((.list xs : PyVal) |> fun _ => xs.any fun v =>
                    match v with | .str s => s = "Price" | _ => false) ||
                !(xs.any fun v => match v with | .str s => s = "Street Name" | _ => false)
             then .error .keyError else .error .attributeError) from rfl] at h
      split at h <;> cases h
  | int n => cases h
  | bool b => cases h
  | float n d => cases h
  | pyNone => cases h
theorem dget?_none_of_not_dcontains {α : Type} (d : Dict α) (k : String)
    (h : dcontains d k = false) : dget? d k = none := by
  simpa [dcontains] using h

theorem processRecord_rejected (index : FDict) (tt : String) (r : PyVal)
    (total : MRat) (count : ℕ) (h : rejectedB index r = true) :
    ∃ e, processRecord index tt r total count = .error e ∧ caught e = true := by
  cases r with
  | dict d =>
      rw [show processRecord index tt (.dict d) total count =
            (if !dcontains d "Price" || !dcontains d "Street Name" then .error .keyError
             else
             match pyLower ((dget? d "Street Name").getD (.str "")) with
             | .error e => .error e
             | .ok street_name =>
               match parseFloat (removeCommas (pyStr ((dget? d "Price").getD (.str "0")))) with
               | none => .error .valueError
               | some price =>
                 if street_name = "" then .error .valueError
                 else
                 match dget? index street_name with
                 | none => .error .keyError
                 | some inner =>
                     if dcontains inner tt = true then .ok (total.add price, count + 1)
                     else .ok (total, count)) from rfl]
      by_cases hp : dcontains d "Price" = true
      · by_cases hsn : dcontains d "Street Name" = true
        · rw [if_neg (by simp [hp, hsn])]
          rw [show rejectedB index (.dict d) =
                (!dcontains d "Price" || !dcontains d "Street Name" ||
                 (match dget? d "Street Name" with
                  | some (.str name) =>
                      (pyLowerStr name == "") ||
                      (match dget? d "Price" with
                       | some pv => (parseFloat (removeCommas (pyStr pv))).isNone
                       | none => false) ||
                      !dcontains index (pyLowerStr name)
                  | _ => false)) from rfl, hp, hsn] at h
          obtain ⟨snv, hsnv⟩ := dget?_of_dcontains d "Street Name" hsn
          obtain ⟨pv, hpv⟩ := dget?_of_dcontains d "Price" hp
          rw [hsnv, hpv] at h
          cases snv with
          | str name =>
              dsimp only at h
              simp only [Bool.not_true, Bool.false_or] at h
              rw [hsnv, Option.getD_some,
                show pyLower (.str name) = .ok (pyLowerStr name) from rfl]
              dsimp only
              rw [hpv, Option.getD_some]
              by_cases hparse : (parseFloat (removeCommas (pyStr pv))).isNone = true
              · rw [Option.isNone_iff_eq_none.mp hparse]
                exact ⟨.valueError, rfl, rfl⟩
              · obtain ⟨price, hprice⟩ : ∃ p, parseFloat (removeCommas (pyStr pv)) = some p := by
                  cases hpf : parseFloat (removeCommas (pyStr pv)) with
                  | none => rw [hpf] at hparse; simp at hparse
                  | some p => exact ⟨p, rfl⟩
                rw [hprice]
                dsimp only
                by_cases hblank : pyLowerStr name = ""
                · exact ⟨.valueError, by rw [if_pos hblank], rfl⟩
                · rw [if_neg hblank]
                  have hidx : dcontains index (pyLowerStr name) = false := by
                    rw [hprice] at h
                    rcases Bool.or_eq_true_iff.mp h with h12 | h3
                    · rcases Bool.or_eq_true_iff.mp h12 with h1 | h2
                      · exact absurd (by simpa using h1) hblank
                      · simp at h2
                    · simpa using h3
                  rw [dget?_none_of_not_dcontains index _ hidx]
                  exact ⟨.keyError, rfl, rfl⟩
          | int n => dsimp only at h; simp at h
          | bool b => dsimp only at h; simp at h
          | float n dd => dsimp only at h; simp at h
          | pyNone => dsimp only at h; simp at h
          | list xs => dsimp only at h; simp at h
          | dict dd => dsimp only at h; simp at h
        · exact ⟨.keyError, by rw [if_pos (by simp [hsn])], rfl⟩
      · exact ⟨.keyError, by rw [if_pos (by simp [hp])], rfl⟩
  | str s => simp [rejectedB] at h
  | int n => simp [rejectedB] at h
  | bool b => simp [rejectedB] at h
  | float n d => simp [rejectedB] at h
  | pyNone => simp [rejectedB] at h
  | list xs => simp [rejectedB] at h

theorem aggregate_skip_of_rejected (index : FDict) (tt : String) (r : PyVal)
    (rest : List PyVal) (total : MRat) (count : ℕ)
    (h : rejectedB index r = true) :
    aggregate index tt (r :: rest) total count = aggregate index tt rest total count := by
  obtain ⟨e, he, hc⟩ := processRecord_rejected index tt r total count h
  rw [show aggregate index tt (r :: rest) total count =
        (match processRecord index tt r total count with
         | .ok (total', count') => aggregate index tt rest total' count'
         | .error e =>
             if caught e then aggregate index tt rest total count
             else .error e) from rfl, he]
  dsimp only
  rw [hc]
  rfl
theorem MRat_add_num_nonneg (a b : MRat) (ha : 0 ≤ a.num) (hb : 0 ≤ b.num) :
    0 ≤ (a.add b).num := by
  rw [show (a.add b).num = a.num * b.den.1 + b.num * a.den.1 from rfl]
  have h1 : (0:ℤ) ≤ (b.den.1 : ℤ) := Int.natCast_nonneg _
  have h2 : (0:ℤ) ≤ (a.den.1 : ℤ) := Int.natCast_nonneg _
  nlinarith

theorem nonnegPricesB_cons (r : PyVal) (rest : List PyVal) :
    nonnegPricesB (r :: rest) = true ↔
      ((match priceOf r with
        | some q => decide (0 ≤ q.num)
        | none => true) = true ∧ nonnegPricesB rest = true) := by
  simp [nonnegPricesB]

theorem aggregate_total_nonneg (index : FDict) (tt : String) (sales : List PyVal)
    (total : MRat) (count : ℕ) (T : MRat) (C : ℕ)
    (h : aggregate index tt sales total count = .ok (T, C))
    (h0 : 0 ≤ total.num) (hnn : nonnegPricesB sales = true) : 0 ≤ T.num := by
  induction sales generalizing total count with
  | nil =>
      rw [show aggregate index tt [] total count = .ok (total, count) from rfl] at h
      cases h
      exact h0
  | cons r rest ih =>
      obtain ⟨hr, hrest⟩ := (nonnegPricesB_cons r rest).mp hnn
      rw [show aggregate index tt (r :: rest) total count =
            (match processRecord index tt r total count with
             | .ok (total', count') => aggregate index tt rest total' count'
             | .error e =>
                 if caught e then aggregate index tt rest total count
                 else .error e) from rfl] at h
      cases hpr : processRecord index tt r total count with
      | ok p =>
          obtain ⟨t', c'⟩ := p
          rw [hpr] at h
          dsimp only at h
          rcases processRecord_ok index tt r total count t' c' hpr with ⟨he, _⟩ | ⟨q, hq, he, _⟩
          · exact ih t' c' h (he ▸ h0) hrest
          · have hqn : 0 ≤ q.num := by
              rw [hq] at hr
              simpa using hr
            exact ih t' c' h (he ▸ MRat_add_num_nonneg total q h0 hqn) hrest
      | error e =>
          rw [hpr] at h
          dsimp only at h
          by_cases hc : caught e = true
          · rw [if_pos hc] at h
            exact ih total count h h0 hrest
          · rw [if_neg hc] at h
            cases h

theorem roundHalfEven_nonneg (m : MRat) (h : 0 ≤ m.num) : 0 ≤ roundHalfEven m := by
  have hf : 0 ≤ Int.fdiv m.num m.den.1 :=
    Int.fdiv_nonneg h (Int.natCast_nonneg _)
  unfold roundHalfEven
  dsimp only
  split_ifs <;> omega

theorem MRat_toRat_nonneg (m : MRat) : 0 ≤ m.toRat ↔ 0 ≤ m.num := by
  have hden : (0:ℚ) < (m.den.1 : ℚ) := by exact_mod_cast m.den.2
  rw [MRat.toRat]
  constructor
  · intro h
    have := (le_div_iff₀ hden).mp h
    exact_mod_cast (by simpa using this)
  · intro h
    exact div_nonneg (by exact_mod_cast h) hden.le

theorem round2_toRat (m : MRat) :
    (round2 m).toRat = ((roundHalfEven ⟨m.num * 100, m.den⟩ : ℤ) : ℚ) / 100 := by
  show ((roundHalfEven ⟨m.num * 100, m.den⟩ : ℤ) : ℚ) / ((100 : ℕ) : ℚ) = _
  norm_num

theorem round2_nonneg (m : MRat) (h : 0 ≤ m.num) : 0 ≤ (round2 m).toRat := by
  rw [round2_toRat]
  have hr : 0 ≤ roundHalfEven ⟨m.num * 100, m.den⟩ :=
    roundHalfEven_nonneg _ (by simpa using mul_nonneg h (by norm_num : (0:ℤ) ≤ 100))
  apply div_nonneg _ (by norm_num)
  exact_mod_cast hr

theorem memLeafB_iff (x : String × String × PyVal) (l : List (String × String × PyVal)) :
    memLeafB x l = true ↔ x ∈ l := by
  unfold memLeafB
  rw [List.any_eq_true]
  constructor
  · rintro ⟨y, hy, hxy⟩
    obtain ⟨x1, x2, x3⟩ := x
    obtain ⟨y1, y2, y3⟩ := y
    unfold tripleEqb at hxy
    simp only [Bool.and_eq_true, beq_iff_eq] at hxy
    obtain ⟨⟨e1, e2⟩, e3⟩ := hxy
    subst e1
    subst e2
    rw [(pyEqb_eq _ _).mp e3] at *
    exact hy
  · intro hx
    refine ⟨x, hx, ?_⟩
    obtain ⟨x1, x2, x3⟩ := x
    unfold tripleEqb
    simp [pyEqb_eq]

theorem sameLeafSet_mem (t1 t2 : Dict PyVal) (h : sameLeafSet t1 t2 = true)
    (x : String × String × PyVal) : x ∈ leafList t1 ↔ x ∈ leafList t2 := by
  unfold sameLeafSet at h
  simp only [Bool.and_eq_true, List.all_eq_true] at h
  obtain ⟨h12, h21⟩ := h
  constructor
  · intro hx
    exact (memLeafB_iff x _).mp (h12 x hx)
  · intro hx
    exact (memLeafB_iff x _).mp (h21 x hx)

theorem hasLeafTop_congr (t1 t2 : Dict PyVal) (h : sameLeafSet t1 t2 = true)
    (u s : String) : hasLeafTop t1 u s = hasLeafTop t2 u s := by
  rw [hasLeafTop_eq_any, hasLeafTop_eq_any, Bool.eq_iff_iff,
    List.any_eq_true, List.any_eq_true]
  constructor
  · rintro ⟨x, hx, hpx⟩
    exact ⟨x, (sameLeafSet_mem t1 t2 h x).mp hx, hpx⟩
  · rintro ⟨x, hx, hpx⟩
    exact ⟨x, (sameLeafSet_mem t1 t2 h x).mpr hx, hpx⟩

theorem flattenCategories_isOk (st : Dict PyVal) (acc : FDict)
    (hd : topValuesAreDicts st = true) : ∃ idx, flattenCategories st acc = .ok idx := by
  induction st generalizing acc with
  | nil => exact ⟨acc, rfl⟩
  | cons hd0 rest ih =>
      obtain ⟨u, v⟩ := hd0
      cases v with
      | dict d =>
          have hrest : topValuesAreDicts rest = true := by
            simpa [topValuesAreDicts] using hd
          exact ih (flattenStreetTreeType d u acc) hrest
      | int n => simp [topValuesAreDicts] at hd
      | bool b => simp [topValuesAreDicts] at hd
      | str s => simp [topValuesAreDicts] at hd
      | float n dd => simp [topValuesAreDicts] at hd
      | pyNone => simp [topValuesAreDicts] at hd
      | list xs => simp [topValuesAreDicts] at hd

/-- C1: on the reference data (sales on "the park" at 79,500.00 on a
short-only street, "cambridge road" at 120,000.00 on a tall-only street,
"ventry park" at 150,000.00 on a short-and-tall street), the category
average for "tall" equals 135000.00 and the category average for "short"
equals 114750.00. -/
theorem claim_C1_reference_averages :
    ratResult (averagePriceForCategory refSales refTrees "tall") = .ok 135000 ∧
    ratResult (averagePriceForCategory refSales refTrees "short") = .ok 114750 := by
  constructor
  · have h : averagePriceForCategory refSales refTrees "tall" =
        .ok ⟨13500000, ⟨100, by norm_num⟩⟩ := by decide
    rw [ratResult, h]
    show Except.ok ((13500000 : ℚ) / 100) = _
    norm_num
  · have h : averagePriceForCategory refSales refTrees "short" =
        .ok ⟨11475000, ⟨100, by norm_num⟩⟩ := by decide
    rw [ratResult, h]
    show Except.ok ((11475000 : ℚ) / 100) = _
    norm_num

/-- C2 (code bug): a sale record whose "Street Name" value is not a string
(here the int 123) makes `_calculate_average_price` raise `AttributeError`
from `.lower()`, which the `except (ValueError, KeyError, TypeError)`
clause does not catch, so no numeric result is returned — both the tall and
the short call propagate the exception. -/
theorem claim_C2_attribute_error_escapes :
    calculateAveragePriceTallTrees
        [.dict [("Street Name", .int 123), ("Price", .str "1")]] refTrees =
      .error .attributeError ∧
    calculateAveragePriceShortTrees
        [.dict [("Street Name", .int 123), ("Price", .str "1")]] refTrees =
      .error .attributeError := by
  exact ⟨by decide, by decide⟩

/-- C3 counterexample: the record `{"Street Name": 123, "Price": "abc"}` has
a price that does not parse after comma removal, so the claim says it is
skipped and the remaining records determine the result; instead the code
raises `AttributeError`, and the result differs from the result on the
remaining (empty) record list. -/
theorem claim_C3_counterexample :
    parseFloat (removeCommas (pyStr (.str "abc"))) = none ∧
    averagePriceForCategory
        [.dict [("Street Name", .int 123), ("Price", .str "abc")]] refTrees "tall" =
      .error .attributeError ∧
    averagePriceForCategory ([] : List PyVal) refTrees "tall" ≠
      .error .attributeError := by
  exact ⟨by decide, by decide, by decide⟩

/-- C3 (amended): provided the record's street-name field, when it is
inspected, holds a string, a record that is missing "Price" or
"Street Name", or has a blank street name after lower-casing, or a price
that does not parse after comma removal, or a street absent from the
flattened index, contributes to neither the running sum nor the running
count: the aggregation over the list with the record equals the aggregation
over the list without it, from any accumulator state, and so does the final
average. -/
theorem claim_C3_rejected_record_skipped (index : FDict) (tree_type : String)
    (r : PyVal) (rest : List PyVal) (total : MRat) (count : ℕ)
    (h : rejectedB index r = true) :
    aggregate index tree_type (r :: rest) total count =
      aggregate index tree_type rest total count ∧
    calculateAveragePrice (r :: rest) index tree_type =
      calculateAveragePrice rest index tree_type := by
  refine ⟨aggregate_skip_of_rejected index tree_type r rest total count h, ?_⟩
  unfold calculateAveragePrice
  rw [aggregate_skip_of_rejected index tree_type r rest (.ofInt 0) 0 h]

/-- C3 witness: a record on "nowhere road" (absent from the reference index)
is skipped on top of the reference sales. -/
theorem claim_C3_witness :
    rejectedB refIndex (.dict [("Street Name", .str "nowhere road"), ("Price", .str "1")]) =
      true ∧
    (aggregate refIndex "tall"
        (.dict [("Street Name", .str "nowhere road"), ("Price", .str "1")] :: refSales)
        (.ofInt 0) 0 =
      aggregate refIndex "tall" refSales (.ofInt 0) 0 ∧
     calculateAveragePrice
        (.dict [("Street Name", .str "nowhere road"), ("Price", .str "1")] :: refSales)
        refIndex "tall" =
      calculateAveragePrice refSales refIndex "tall") :=
  ⟨by decide,
   claim_C3_rejected_record_skipped refIndex "tall"
     (.dict [("Street Name", .str "nowhere road"), ("Price", .str "1")]) refSales
     (.ofInt 0) 0 (by decide)⟩

/-- C4 counterexample: a string terminal directly under a top-level category
key is not silently dropped — flattening raises `AttributeError` (the value
is handed to a `.items()` iteration). -/
theorem claim_C4_counterexample :
    flattenStreetTrees [("tall", .str "oops")] = .error .attributeError := by
  decide

/-- C4 (amended): when every top-level category value is a mapping,
flattening returns normally; and below the top level an entry whose value is
a non-mapping that fails the height test is silently dropped — processing
continues exactly as if the entry were absent.  A non-mapping directly under
a top-level category key instead raises `AttributeError`. -/
theorem claim_C4_invalid_leaves_dropped (street_trees : Dict PyVal) (k : String)
    (v : PyVal) (rest : List (String × PyVal)) (tree_type : String) (acc : FDict)
    (hdicts : topValuesAreDicts street_trees = true)
    (hnd : isDictB v = false) (hvalid : isValidHeight v = false) :
    (flattenStreetTrees street_trees).isOk = true ∧
    flattenEntries ((k, v) :: rest) tree_type acc = flattenEntries rest tree_type acc := by
  constructor
  · obtain ⟨idx, hidx⟩ := flattenCategories_isOk street_trees [] hdicts
    rw [flattenStreetTrees, hidx]
    rfl
  · rw [show flattenEntries ((k, v) :: rest) tree_type acc =
          flattenEntries rest tree_type (flattenVal k v tree_type acc) from rfl]
    have hv : flattenVal k v tree_type acc = acc := by
      cases v with
      | dict d => simp [isDictB] at hnd
      | int n =>
          rw [show flattenVal k (.int n) tree_type acc =
                (if isValidHeight (.int n) then recordStreet acc k tree_type else acc)
              from rfl, hvalid]
          rfl
      | bool b => simp [isValidHeight] at hvalid
      | str s => rfl
      | float n d => rfl
      | pyNone => rfl
      | list xs => rfl
    rw [hv]

/-- C4 witness: the reference taxonomy flattens normally, and a string leaf
inserted before a valid leaf is dropped without affecting it. -/
theorem claim_C4_witness :
    topValuesAreDicts refTrees = true ∧ isDictB (.str "oops") = false ∧
    isValidHeight (.str "oops") = false ∧
    ((flattenStreetTrees refTrees).isOk = true ∧
     flattenEntries [("left turn", .str "oops"), ("the park", .int 10)] "short" [] =
       flattenEntries [("the park", .int 10)] "short" []) :=
  ⟨by decide, by decide, by decide,
   claim_C4_invalid_leaves_dropped refTrees "left turn" (.str "oops")
     [("the park", .int 10)] "short" [] (by decide) (by decide) (by decide)⟩
/-- C5 counterexample: a sale with the negative price "-100" on short-only
"the park" yields the short-category average -100.00, a negative number, so
the average is not non-negative for every sales list. -/
theorem claim_C5_counterexample :
    ratResult (averagePriceForCategory
        [.dict [("Street Name", .str "the park"), ("Price", .str "-100")]]
        refTrees "short") = .ok (-100) ∧ ((-100 : ℚ) < 0) := by
  constructor
  · have h : averagePriceForCategory
        [.dict [("Street Name", .str "the park"), ("Price", .str "-100")]]
        refTrees "short" = .ok ⟨-10000, ⟨100, by norm_num⟩⟩ := by decide
    rw [ratResult, h]
    show Except.ok ((-10000 : ℚ) / 100) = _
    norm_num
  · norm_num

/-- C5 (amended): the returned category average is always an integer number
of hundredths (rounded to 2 fraction digits); it is exactly 0.0 whenever
zero sale records match the requested category; and it is non-negative
whenever every record price that parses is non-negative (for arbitrary
sales data the prices, hence the average, may be negative). -/
theorem claim_C5_average_shape (property_sales : List PyVal) (index : FDict)
    (tree_type : String) (total : MRat) (count : ℕ)
    (hagg : aggregate index tree_type property_sales (.ofInt 0) 0 = .ok (total, count)) :
    (∃ n : ℤ, ratResult (calculateAveragePrice property_sales index tree_type) =
        .ok ((n : ℚ) / 100)) ∧
    (count = 0 → ratResult (calculateAveragePrice property_sales index tree_type) = .ok 0) ∧
    (nonnegPricesB property_sales = true →
      ∃ q : ℚ, ratResult (calculateAveragePrice property_sales index tree_type) = .ok q ∧
        0 ≤ q) := by
  have hcalc : calculateAveragePrice property_sales index tree_type =
      .ok (round2 (if h : count ≠ 0 then total.divNat count (Nat.pos_of_ne_zero h)
                   else .ofInt 0)) := by
    unfold calculateAveragePrice
    rw [hagg]
  refine ⟨?_, ?_, ?_⟩
  · refine ⟨roundHalfEven
        ⟨(if h : count ≠ 0 then total.divNat count (Nat.pos_of_ne_zero h)
          else .ofInt 0).num * 100,
         (if h : count ≠ 0 then total.divNat count (Nat.pos_of_ne_zero h)
          else .ofInt 0).den⟩, ?_⟩
    rw [ratResult, hcalc]
    show Except.ok ((round2 _).toRat) = _
    rw [round2_toRat]
  · intro h0
    have havg : (if h : count ≠ 0 then total.divNat count (Nat.pos_of_ne_zero h)
        else MRat.ofInt 0) = .ofInt 0 := by
      rw [dif_neg]
      simp [h0]
    rw [ratResult, hcalc, havg]
    have h2 : round2 (.ofInt 0) = ⟨0, ⟨100, by norm_num⟩⟩ := by decide
    rw [h2]
    show Except.ok ((0 : ℚ) / 100) = _
    norm_num
  · intro hnn
    have htot : 0 ≤ total.num :=
      aggregate_total_nonneg index tree_type property_sales (.ofInt 0) 0 total count
        hagg (le_refl 0) hnn
    have havg : 0 ≤ (if h : count ≠ 0 then total.divNat count (Nat.pos_of_ne_zero h)
        else MRat.ofInt 0).num := by
      by_cases h : count ≠ 0
      · rw [dif_pos h]
        exact htot
      · rw [dif_neg h]
        exact le_refl 0
    refine ⟨(round2 (if h : count ≠ 0 then total.divNat count (Nat.pos_of_ne_zero h)
        else MRat.ofInt 0)).toRat, ?_, round2_nonneg _ havg⟩
    rw [ratResult, hcalc]
    rfl

/-- C5 witness: the reference "tall" aggregation has total 2700000000/10000
over 2 records; the average is a whole number of hundredths, the zero-count
clause holds vacuously, and the non-negative-prices clause applies. -/
theorem claim_C5_witness :
    aggregate refIndex "tall" refSales (.ofInt 0) 0 =
      .ok (⟨2700000000, ⟨10000, by norm_num⟩⟩, 2) ∧
    ((∃ n : ℤ, ratResult (calculateAveragePrice refSales refIndex "tall") =
        .ok ((n : ℚ) / 100)) ∧
     ((2 : ℕ) = 0 → ratResult (calculateAveragePrice refSales refIndex "tall") = .ok 0) ∧
     (nonnegPricesB refSales = true →
       ∃ q : ℚ, ratResult (calculateAveragePrice refSales refIndex "tall") = .ok q ∧
         0 ≤ q)) :=
  ⟨by decide,
   claim_C5_average_shape refSales refIndex "tall" ⟨2700000000, ⟨10000, by norm_num⟩⟩ 2
     (by decide)⟩

/-- C6 counterexample: the taxonomy leaf key "The Park" is copied verbatim
into the flattened index, so the index key is not lower-cased, and a sale
record on that very street does not match (its name is lower-cased to
"the park" before lookup), yielding average 0.0 instead of the sale's
price. -/
theorem claim_C6_counterexample :
    flattenStreetTrees [("tall", .dict [("The Park", .int 5)])] =
      .ok [("The Park", [("tall", true)])] ∧
    pyLowerStr "The Park" ≠ "The Park" ∧
    ratResult (averagePriceForCategory
        [.dict [("Street Name", .str "The Park"), ("Price", .str "100")]]
        [("tall", .dict [("The Park", .int 5)])] "tall") = .ok 0 := by
  refine ⟨by decide, by decide, ?_⟩
  have h : averagePriceForCategory
      [.dict [("Street Name", .str "The Park"), ("Price", .str "100")]]
      [("tall", .dict [("The Park", .int 5)])] "tall" =
      .ok ⟨0, ⟨100, by norm_num⟩⟩ := by decide
  rw [ratResult, h]
  show Except.ok ((0 : ℚ) / 100) = _
  norm_num

/-- C6 (amended): the flattened index holds a street under a category
exactly when the taxonomy has a valid leaf with *that verbatim key* under
that category — no lower-casing is applied during flattening; since the
aggregator lower-cases the record's street name before lookup,
case-insensitive matching of records holds only for taxonomy leaf keys that
are already lower-case. -/
theorem claim_C6_index_keys_verbatim (street_trees : Dict PyVal) (idx : FDict)
    (h : flattenStreetTrees street_trees = .ok idx) (s t : String) :
    lookupFlag idx s t = some true ↔ hasLeafTop street_trees t s = true := by
  rw [lookupFlag_flattenStreetTrees street_trees idx h s t]
  by_cases hl : hasLeafTop street_trees t s = true <;> simp [hl]

/-- C6 witness: the mixed-case key "The Park" is itself the index key. -/
theorem claim_C6_witness :
    flattenStreetTrees [("tall", .dict [("The Park", .int 5)])] =
      .ok [("The Park", [("tall", true)])] ∧
    (lookupFlag [("The Park", [("tall", true)])] "The Park" "tall" = some true ↔
      hasLeafTop [("tall", .dict [("The Park", .int 5)])] "tall" "The Park" = true) :=
  ⟨by decide,
   claim_C6_index_keys_verbatim [("tall", .dict [("The Park", .int 5)])]
     [("The Park", [("tall", true)])] (by decide) "The Park" "tall"⟩
/-- C7: flattening is deterministic — two runs on the same taxonomy yield
the same index as a street-to-category-set mapping; re-processing the same
entries on top of their own output changes no flag (idempotence); and a
duplicated leaf entry leaves every flag of the index unchanged. -/
theorem claim_C7_flatten_idempotent (street_trees : Dict PyVal) (idx1 idx2 : FDict)
    (h1 : flattenStreetTrees street_trees = .ok idx1)
    (h2 : flattenStreetTrees street_trees = .ok idx2)
    (l : List (String × PyVal)) (tree_type : String) (acc : FDict)
    (k : String) (v : PyVal) (s t : String) :
    lookupFlag idx1 s t = lookupFlag idx2 s t ∧
    lookupFlag (flattenEntries l tree_type (flattenEntries l tree_type acc)) s t =
      lookupFlag (flattenEntries l tree_type acc) s t ∧
    lookupFlag (flattenEntries ((k, v) :: (k, v) :: l) tree_type acc) s t =
      lookupFlag (flattenEntries ((k, v) :: l) tree_type acc) s t := by
  refine ⟨?_, ?_, ?_⟩
  · rw [h1] at h2
    cases h2
    rfl
  · rw [lookupFlag_flattenEntries l tree_type (flattenEntries l tree_type acc) s t,
      lookupFlag_flattenEntries l tree_type acc s t]
    by_cases hc : t = tree_type ∧ hasLeafEntries l s = true <;> simp [hc]
  · rw [show flattenEntries ((k, v) :: (k, v) :: l) tree_type acc =
          flattenEntries ((k, v) :: l) tree_type (flattenVal k v tree_type acc) from rfl,
      lookupFlag_flattenEntries ((k, v) :: l) tree_type
        (flattenVal k v tree_type acc) s t,
      lookupFlag_flattenEntries ((k, v) :: l) tree_type acc s t,
      lookupFlag_flattenVal k v tree_type acc s t,
      show hasLeafEntries ((k, v) :: l) s =
        (hasLeafVal k v s || hasLeafEntries l s) from rfl]
    by_cases ht : t = tree_type <;> by_cases hv : hasLeafVal k v s = true <;>
      by_cases hl : hasLeafEntries l s = true <;> simp [ht, hv, hl]

/-- C7 witness: two flattenings of the reference taxonomy agree, re-running
an entry list is idempotent, and a duplicated "the park" leaf changes
nothing. -/
theorem claim_C7_witness :
    flattenStreetTrees refTrees = .ok refIndex ∧
    flattenStreetTrees refTrees = .ok refIndex ∧
    (lookupFlag refIndex "ventry park" "tall" = lookupFlag refIndex "ventry park" "tall" ∧
     lookupFlag (flattenEntries [("x", .int 1)] "short"
        (flattenEntries [("x", .int 1)] "short" [])) "the park" "short" =
       lookupFlag (flattenEntries [("x", .int 1)] "short" []) "the park" "short" ∧
     lookupFlag (flattenEntries
        [("the park", .int 10), ("the park", .int 10), ("x", .int 1)] "short" [])
        "the park" "short" =
       lookupFlag (flattenEntries [("the park", .int 10), ("x", .int 1)] "short" [])
        "the park" "short") :=
  ⟨by decide, by decide,
   claim_C7_flatten_idempotent refTrees refIndex refIndex (by decide) (by decide)
     [("x", .int 1)] "short" [] "the park" (.int 10) "the park" "short"⟩

/-- C8: two taxonomies with exactly the same set of (category, street,
value) leaves — however differently nested — whose flattenings both return,
flatten to the same street-to-category-set mapping. -/
theorem claim_C8_depth_independence (t1 t2 : Dict PyVal) (idx1 idx2 : FDict)
    (h1 : flattenStreetTrees t1 = .ok idx1) (h2 : flattenStreetTrees t2 = .ok idx2)
    (hsame : sameLeafSet t1 t2 = true) (s t : String) :
    lookupFlag idx1 s t = lookupFlag idx2 s t := by
  rw [lookupFlag_flattenStreetTrees t1 idx1 h1 s t,
    lookupFlag_flattenStreetTrees t2 idx2 h2 s t,
    hasLeafTop_congr t1 t2 hsame t s]

/-- C8 witness: a triply-nested and a flat taxonomy with the single leaf
("tall", "x", 5) flatten to the same mapping. -/
theorem claim_C8_witness :
    flattenStreetTrees
        [("tall", .dict [("a", .dict [("b", .dict [("x", .int 5)])])])] =
      .ok [("x", [("tall", true)])] ∧
    flattenStreetTrees [("tall", .dict [("x", .int 5)])] =
      .ok [("x", [("tall", true)])] ∧
    sameLeafSet [("tall", .dict [("a", .dict [("b", .dict [("x", .int 5)])])])]
        [("tall", .dict [("x", .int 5)])] = true ∧
    lookupFlag [("x", [("tall", true)])] "x" "tall" =
      lookupFlag [("x", [("tall", true)])] "x" "tall" :=
  ⟨by decide, by decide, by decide,
   claim_C8_depth_independence
     [("tall", .dict [("a", .dict [("b", .dict [("x", .int 5)])])])]
     [("tall", .dict [("x", .int 5)])]
     [("x", [("tall", true)])] [("x", [("tall", true)])]
     (by decide) (by decide) (by decide) "x" "tall"⟩

/-- C9: a street with valid leaves under two top-level categories carries
both flags in the flattened index, and recording one category for a street
never removes a flag already recorded. -/
theorem claim_C9_multi_category (street_trees : Dict PyVal) (idx : FDict)
    (h : flattenStreetTrees street_trees = .ok idx) (s u1 u2 : String)
    (h1 : hasLeafTop street_trees u1 s = true) (h2 : hasLeafTop street_trees u2 s = true)
    (acc : FDict) (k u s' t' : String) (hprev : lookupFlag acc s' t' = some true) :
    (lookupFlag idx s u1 = some true ∧ lookupFlag idx s u2 = some true) ∧
    lookupFlag (recordStreet acc k u) s' t' = some true := by
  refine ⟨⟨?_, ?_⟩, ?_⟩
  · rw [lookupFlag_flattenStreetTrees street_trees idx h s u1, if_pos h1]
  · rw [lookupFlag_flattenStreetTrees street_trees idx h s u2, if_pos h2]
  · rw [lookupFlag_recordStreet acc k u s' t']
    by_cases hc : s' = k ∧ t' = u
    · rw [if_pos hc]
    · rw [if_neg hc]
      exact hprev

/-- C9 witness: "ventry park" has valid leaves under both "short" and
"tall" in the reference taxonomy and carries both flags; an unrelated
recording does not erase an existing flag. -/
theorem claim_C9_witness :
    flattenStreetTrees refTrees = .ok refIndex ∧
    hasLeafTop refTrees "short" "ventry park" = true ∧
    hasLeafTop refTrees "tall" "ventry park" = true ∧
    lookupFlag [("a", [("short", true)])] "a" "short" = some true ∧
    ((lookupFlag refIndex "ventry park" "short" = some true ∧
      lookupFlag refIndex "ventry park" "tall" = some true) ∧
     lookupFlag (recordStreet [("a", [("short", true)])] "b" "tall") "a" "short" =
       some true) :=
  ⟨by decide, by decide, by decide, by decide,
   claim_C9_multi_category refTrees refIndex (by decide) "ventry park" "short" "tall"
     (by decide) (by decide) [("a", [("short", true)])] "b" "tall" "a" "short"
     (by decide)⟩

/-- C10: a taxonomy leaf whose value is the boolean True or False is
accepted as a valid height (Python's `isinstance(value, int)` is true for
booleans and both satisfy `value >= 0`), so the street is recorded under
the enclosing category rather than ignored. -/
theorem claim_C10_bool_leaf_accepted (street_trees : Dict PyVal) (idx : FDict)
    (h : flattenStreetTrees street_trees = .ok idx) (cat street : String) (b : Bool)
    (hleaf : leafOccursB street_trees cat street (.bool b) = true) :
    lookupFlag idx street cat = some true := by
  have hl : hasLeafTop street_trees cat street = true := by
    rw [hasLeafTop_eq_any, List.any_eq_true]
    have hmem : (cat, street, PyVal.bool b) ∈ leafList street_trees :=
      (memLeafB_iff _ _).mp hleaf
    exact ⟨(cat, street, .bool b), hmem, by simp [isValidHeight]⟩
  rw [lookupFlag_flattenStreetTrees street_trees idx h street cat, if_pos hl]

/-- C10 witness: a leaf mapped to False still records its street under the
enclosing category. -/
theorem claim_C10_witness :
    flattenStreetTrees [("tall", .dict [("x", .bool false)])] =
      .ok [("x", [("tall", true)])] ∧
    leafOccursB [("tall", .dict [("x", .bool false)])] "tall" "x" (.bool false) = true ∧
    lookupFlag [("x", [("tall", true)])] "x" "tall" = some true :=
  ⟨by decide, by decide,
   claim_C10_bool_leaf_accepted [("tall", .dict [("x", .bool false)])]
     [("x", [("tall", true)])] (by decide) "tall" "x" false (by decide)⟩

end PVS
